import Mathlib

/-!
Verification development for the command-line parsing and bootstrap layer of
the swayimg image viewer (src/main.c).

The embedding translates the source unit directly:
- the static long-option table `options`,
- the short-option specification builder (modelled both as the list of
  buffer writes with explicit indices, `shortOptWrites`, and as the plain
  character list `composeShortOpts`),
- the argument scan loop of `parse_cmdline` (the getopt_long collaborator is
  libc code outside the analyzed sources; it is modelled from the spec's
  description of standard POSIX-style option scanning: stop at the first
  non-option token, long options matched by name, short options matched by
  character in the short spec, clusters and inline/separate arguments),
- the file-set selection and dispatch logic of `main` (`mainRun`).

External collaborators (configuration setters, check_config, init_config,
init_file_list, run_viewer, supported_formats) live in repository files that
are not part of the analyzed unit; they are parameters of an `Env` record,
so every theorem quantifies over their behaviour.  Observable behaviour
(stdout/stderr lines, collaborator invocations) is recorded as a `SysEvent`
trace.
-/

/-- Arity of a command line option: no_argument or required_argument. -/
inductive Arity where
  | noArg
  | required
deriving DecidableEq, Repr

/-- One entry of the static `struct option` table: long name (NULL for the
terminator), arity, and the short-option character (`val`, 0 for the
terminator). -/
structure COption where
  name : Option String
  has_arg : Arity
  val : Char
deriving DecidableEq, Repr

/-- The static command line option table from src/main.c, including the
all-zero terminator entry. -/
def options : List COption :=
  [ { name := some "fullscreen", has_arg := Arity.noArg,    val := 'f' },
    { name := some "scale",      has_arg := Arity.required, val := 's' },
    { name := some "background", has_arg := Arity.required, val := 'b' },
    { name := some "geometry",   has_arg := Arity.required, val := 'g' },
    { name := some "info",       has_arg := Arity.noArg,    val := 'i' },
    { name := some "class",      has_arg := Arity.required, val := 'c' },
    { name := some "no-sway",    has_arg := Arity.noArg,    val := 'n' },
    { name := some "version",    has_arg := Arity.noArg,    val := 'v' },
    { name := some "help",       has_arg := Arity.noArg,    val := 'h' },
    { name := none,              has_arg := Arity.noArg,    val := Char.ofNat 0 } ]

/-- The writes performed by the short-option composition loop of
`parse_cmdline`, as (buffer index, character) pairs, starting at write
position `p`.  Mirrors the pointer-increment loop: for each table entry with
a non-zero `val`, write the character, then a colon when the entry takes an
argument; finally write the terminating null at the current position. -/
def shortOptWrites : List COption → Nat → List (Nat × Char)
  | [], p => [(p, Char.ofNat 0)]
  | o :: rest, p =>
    if o.val.toNat ≠ 0 then
      if o.has_arg ≠ Arity.noArg then
        (p, o.val) :: (p + 1, ':') :: shortOptWrites rest (p + 2)
      else
        (p, o.val) :: shortOptWrites rest (p + 1)
    else shortOptWrites rest p

/-- The short-option specification string (as a character list, without the
terminating null) composed from an option table, exactly as the loop in
`parse_cmdline` builds it. -/
def composeShortOpts : List COption → List Char
  | [] => []
  | o :: rest =>
    if o.val.toNat ≠ 0 then
      if o.has_arg ≠ Arity.noArg then o.val :: ':' :: composeShortOpts rest
      else o.val :: composeShortOpts rest
    else composeShortOpts rest

/-- Per-entry contribution to the short spec as the specification describes
it: for every entry with a non-zero short character, that character followed
by a colon if and only if its arity is required-argument; nothing otherwise. -/
def entrySpecChars (o : COption) : List Char :=
  if o.val.toNat ≠ 0 then
    o.val :: (if o.has_arg = Arity.required then [':'] else [])
  else []

/-- Look up a character in a short-option spec (strchr-style): `none` when
the character does not occur as an option character, `some b` when it does,
with `b` true exactly when it is followed by a colon (takes an argument). -/
def specColon : List Char → Char → Option Bool
  | [], _ => none
  | [x], c => if x = c ∧ c ≠ ':' then some false else none
  | x :: y :: rest, c =>
    if x = c ∧ c ≠ ':' then some (y = ':')
    else specColon (y :: rest) c

/-- Mutable configuration record.  Modelled from the spec: the value fields
(scale mode, background colour, geometry, app id) are set by external
setters living in config.c, which is not part of the analyzed unit; per the
spec each setter validates its value and stores it in its own field,
touching no other field.  Here the accepted raw option value is stored. -/
structure Config where
  fullscreen : Bool
  sway_wm : Bool
  show_info : Bool
  scale : String
  background : String
  geometry : String
  app_id : String
deriving DecidableEq, Repr

/-- Observable events of one invocation: stdout lines, stderr lines, and the
calls into the external collaborators. -/
inductive SysEvent where
  | out (s : String)
  | errOut (s : String)
  | checkConfig
  | initFileList (paths : List String) (recursive : Bool)
  | runViewer (files : Option Nat)
deriving DecidableEq, Repr

/-- External collaborators of main.c, as oracles.  Modelled from the spec:
set_scale_config / set_background_config / set_geometry_config /
set_appid_config validate a value (returning false on rejection),
check_config normalizes a configuration, init_config creates the initial
configuration (NULL on failure), init_file_list builds a file enumeration
(NULL when it yields no files; the returned handle is opaque), run_viewer
runs the viewer and reports success, supported_formats lists the image
formats. -/
structure Env where
  scale_ok : String → Bool
  background_ok : String → Bool
  geometry_ok : String → Bool
  appid_ok : String → Bool
  check_config : Config → Config
  init_config : Option Config
  init_file_list : List String → Bool → Option Nat
  run_viewer : Config → Option Nat → Bool
  app_name : String
  app_version : String
  supported_formats : String

/-- Stdout lines produced by print_help. -/
def printHelpEvents (env : Env) : List SysEvent :=
  [ SysEvent.out ("Usage: " ++ env.app_name ++ " [OPTION...] [FILE...]"),
    SysEvent.out "  -f, --fullscreen         Full screen mode",
    SysEvent.out "  -s, --scale=TYPE         Set initial image scale: default, fit, or real",
    SysEvent.out "  -b, --background=XXXXXX  Set background color as hex RGB",
    SysEvent.out "  -g, --geometry=X,Y,W,H   Set window geometry",
    SysEvent.out "  -i, --info               Show image properties",
    SysEvent.out "  -c, --class              Set window class/app_id",
    SysEvent.out "  -n, --no-sway            Disable integration with Sway WM",
    SysEvent.out "  -v, --version            Print version info and exit",
    SysEvent.out "  -h, --help               Print this help and exit" ]

/-- Stdout lines produced by the version case. -/
def versionEvents (env : Env) : List SysEvent :=
  [ SysEvent.out (env.app_name ++ " version " ++ env.app_version ++ "."),
    SysEvent.out ("Supported formats: " ++ env.supported_formats ++ ".") ]

/-- One option event delivered by the scanner: a recognized option character
with its argument (empty for flag options), or a rejected token (getopt
would return a question mark; the offending token, argv[optind-1], is
carried for the diagnostic). -/
inductive GEvent where
  | opt (c : Char) (arg : String)
  | bad (tok : String)
deriving DecidableEq, Repr

/-- Classification of one argv token by the option scanner. -/
inductive TokRes where
  | positional
  | terminator
  | evs (es : List GEvent) (extra : Bool)
deriving DecidableEq, Repr

/-- Scan a short-option cluster (the characters of a token after the dash).
Modelled from the spec: each character is matched in the short spec; a
character taking an argument consumes the remainder of the token, or the
next argv token when the remainder is empty (`extra` true), and a missing
argument or unknown character yields a rejected-token event. -/
def shortScan (spec : List Char) (tok : String) (next : Option String) :
    List Char → List GEvent × Bool
  | [] => ([], false)
  | c :: rest =>
    match specColon spec c with
    | none => ([GEvent.bad tok], false)
    | some true =>
      if rest ≠ [] then ([GEvent.opt c (String.mk rest)], false)
      else
        match next with
        | some a => ([GEvent.opt c a], true)
        | none => ([GEvent.bad tok], false)
    | some false =>
      let r := shortScan spec tok next rest
      (GEvent.opt c "" :: r.1, r.2)

/-- Process a long option token (already stripped of the leading dashes).
Modelled from the spec: matched by name against the option table, with an
inline value after an equals sign, or the next argv token when the entry
requires an argument and no inline value is present. -/
def longScan (tbl : List COption) (tok : String) (next : Option String)
    (body : List Char) : List GEvent × Bool :=
  let nameChars := body.takeWhile (fun ch => ch ≠ '=')
  let afterName := body.dropWhile (fun ch => ch ≠ '=')
  let value? : Option String :=
    match afterName with
    | [] => none
    | _ :: v => some (String.mk v)
  match tbl.find? (fun o => o.name = some (String.mk nameChars)) with
  | none => ([GEvent.bad tok], false)
  | some o =>
    match o.has_arg, value? with
    | Arity.noArg, none => ([GEvent.opt o.val ""], false)
    | Arity.noArg, some _ => ([GEvent.bad tok], false)
    | Arity.required, some v => ([GEvent.opt o.val v], false)
    | Arity.required, none =>
      match next with
      | some a => ([GEvent.opt o.val a], true)
      | none => ([GEvent.bad tok], false)

/-- Syntactic shape of one argv token, depending on the token alone. -/
inductive TClass where
  | positional
  | terminator
  | long (body : List Char)
  | cluster (chars : List Char)
deriving DecidableEq, Repr

/-- Classify the shape of one argv token.  Modelled from the spec: a bare
dash and any token not starting with a dash are positional (the scan
pauses); a bare double dash terminates option scanning; a double-dash token
is a long option; any other dash token is a short-option cluster. -/
def tokClass (t : String) : TClass :=
  match t.toList with
  | [] => TClass.positional
  | ['-'] => TClass.positional
  | ['-', '-'] => TClass.terminator
  | '-' :: '-' :: body => TClass.long body
  | '-' :: c :: rest => TClass.cluster (c :: rest)
  | _ => TClass.positional

/-- Classify one argv token and resolve its option events.  Modelled from
the spec: standard POSIX-style option scanning.  `extra` reports that the
following argv token was consumed as the option's argument. -/
def tokRes (spec : List Char) (tbl : List COption) (t : String)
    (next : Option String) : TokRes :=
  match tokClass t with
  | TClass.positional => TokRes.positional
  | TClass.terminator => TokRes.terminator
  | TClass.long body =>
    let r := longScan tbl t next body
    TokRes.evs r.1 r.2
  | TClass.cluster chars =>
    let r := shortScan spec t next chars
    TokRes.evs r.1 r.2

/-- Result of applying one recognized option to the configuration: continue
with the updated configuration, exit with success printing some lines
(version/help), or abort with failure (a setter rejected the value). -/
inductive StepOut where
  | ok (cfg : Config)
  | exit0 (outs : List SysEvent)
  | fail
deriving DecidableEq, Repr

/-- The switch of parse_cmdline: apply one recognized option character to
the configuration. -/
def applyOpt (env : Env) (cfg : Config) (c : Char) (arg : String) : StepOut :=
  if c = 'f' then StepOut.ok { cfg with fullscreen := true, sway_wm := false }
  else if c = 's' then
    (if env.scale_ok arg then StepOut.ok { cfg with scale := arg } else StepOut.fail)
  else if c = 'b' then
    (if env.background_ok arg then StepOut.ok { cfg with background := arg } else StepOut.fail)
  else if c = 'g' then
    (if env.geometry_ok arg then StepOut.ok { cfg with geometry := arg } else StepOut.fail)
  else if c = 'i' then StepOut.ok { cfg with show_info := true }
  else if c = 'c' then
    (if env.appid_ok arg then StepOut.ok { cfg with app_id := arg } else StepOut.fail)
  else if c = 'n' then StepOut.ok { cfg with sway_wm := false }
  else if c = 'v' then StepOut.exit0 (versionEvents env)
  else if c = 'h' then StepOut.exit0 (printHelpEvents env)
  else StepOut.fail

/-- State of the event-application loop: continue scanning, or halt with a
parse_cmdline return value (0 for the help/version early exit, -1 for an
error). -/
inductive EvStep where
  | go (cfg : Config) (ap : List Char) (ev : List SysEvent)
  | halt (r : Int) (cfg : Config) (ap : List Char) (ev : List SysEvent)
deriving DecidableEq, Repr

/-- Configuration component of an `EvStep`. -/
def EvStep.cfgOf : EvStep → Config
  | EvStep.go cfg _ _ => cfg
  | EvStep.halt _ cfg _ _ => cfg

/-- Applied-option component of an `EvStep`. -/
def EvStep.appliedOf : EvStep → List Char
  | EvStep.go _ ap _ => ap
  | EvStep.halt _ _ ap _ => ap

/-- Event-trace component of an `EvStep`. -/
def EvStep.eventsOf : EvStep → List SysEvent
  | EvStep.go _ _ ev => ev
  | EvStep.halt _ _ _ ev => ev

/-- Apply the option events of one token in order.  A rejected token is the
default case of the switch: print the Invalid-argument diagnostic naming
argv[optind-1] to stderr and return -1. -/
def applyEvents (env : Env) : List GEvent → Config → List Char → List SysEvent → EvStep
  | [], cfg, ap, ev => EvStep.go cfg ap ev
  | GEvent.bad tok :: _, cfg, ap, ev =>
    EvStep.halt (-1) cfg ap (ev ++ [SysEvent.errOut ("Invalid argument: " ++ tok)])
  | GEvent.opt c a :: rest, cfg, ap, ev =>
    match applyOpt env cfg c a with
    | StepOut.ok cfg' => applyEvents env rest cfg' (ap ++ [c]) ev
    | StepOut.exit0 outs => EvStep.halt 0 cfg (ap ++ [c]) (ev ++ outs)
    | StepOut.fail => EvStep.halt (-1) cfg (ap ++ [c]) ev

/-- Result of the argument scan: parse_cmdline's int return value (-1 error,
0 early exit, otherwise the index of the first non-option argument), the
configuration, the list of applied option characters, and the event trace. -/
structure ScanOut where
  result : Int
  cfg : Config
  applied : List Char
  events : List SysEvent
deriving DecidableEq, Repr

/-- The getopt_long while loop of parse_cmdline over the remaining argv
tokens, carrying the current argv index `i`.  The token list is always the
suffix of argv starting at `i`. -/
def scanLoop (env : Env) : List String → Nat → Config → List Char → List SysEvent → ScanOut
  | [], i, cfg, ap, ev => { result := Int.ofNat i, cfg := cfg, applied := ap, events := ev }
  | t :: rest, i, cfg, ap, ev =>
    match tokRes (composeShortOpts options) options t rest.head? with
    | TokRes.positional => { result := Int.ofNat i, cfg := cfg, applied := ap, events := ev }
    | TokRes.terminator => { result := Int.ofNat (i + 1), cfg := cfg, applied := ap, events := ev }
    | TokRes.evs es extra =>
      match applyEvents env es cfg ap ev with
      | EvStep.halt r cfg' ap' ev' => { result := r, cfg := cfg', applied := ap', events := ev' }
      | EvStep.go cfg' ap' ev' =>
        if extra then
          match rest with
          | [] => { result := Int.ofNat (i + 1), cfg := cfg', applied := ap', events := ev' }
          | _ :: rest2 => scanLoop env rest2 (i + 2) cfg' ap' ev'
        else scanLoop env rest (i + 1) cfg' ap' ev'

/-- Reference cursor: the argv index of the first residual positional token,
following the spec's description of the scan (pause at the first non-option
token; an option may consume the following token as its argument; a bare
double dash ends option scanning just after itself).  `none` when the
token list contains no positional token. -/
def firstPositional : List String → Nat → Option Nat
  | [], _ => none
  | t :: rest, i =>
    match tokRes (composeShortOpts options) options t rest.head? with
    | TokRes.positional => some i
    | TokRes.terminator => if rest.isEmpty then none else some (i + 1)
    | TokRes.evs _ extra =>
      if extra then
        match rest with
        | [] => none
        | _ :: rest2 => firstPositional rest2 (i + 2)
      else firstPositional rest (i + 1)

/-- parse_cmdline: scan the arguments (argv[0] is the program name; the scan
cursor starts at 1), then run check_config exactly when the loop finished
normally, returning optind. -/
def parse_cmdline (env : Env) (argv : List String) (cfg : Config) : ScanOut :=
  if (scanLoop env (argv.drop 1) 1 cfg [] []).result > 0 then
    { result := (scanLoop env (argv.drop 1) 1 cfg [] []).result,
      cfg := env.check_config (scanLoop env (argv.drop 1) 1 cfg [] []).cfg,
      applied := (scanLoop env (argv.drop 1) 1 cfg [] []).applied,
      events := (scanLoop env (argv.drop 1) 1 cfg [] []).events ++ [SysEvent.checkConfig] }
  else scanLoop env (argv.drop 1) 1 cfg [] []

/-- The tagged view of parse_cmdline's int return value, as the spec's
ParseOutcome. -/
inductive ParseOutcome where
  | continueAt (i : Nat)
  | exitSuccess
  | exitFailure
deriving DecidableEq, Repr

/-- Map parse_cmdline's sentinel int return value to the tagged outcome. -/
def outcomeOf (r : Int) : ParseOutcome :=
  if r = 0 then ParseOutcome.exitSuccess
  else if r < 0 then ParseOutcome.exitFailure
  else ParseOutcome.continueAt r.toNat

/-- The application entry point: init_config, parse_cmdline, file-set
selection from the residual positional arguments, viewer dispatch, exit
code.  Returns the exit code and the event trace. -/
def mainRun (env : Env) (argv : List String) : Nat × List SysEvent :=
  match env.init_config with
  | none => (1, [])
  | some cfg0 =>
    let p := parse_cmdline env argv cfg0
    if p.result = 0 then (0, p.events)
    else if p.result < 0 then (1, p.events)
    else
      let index := p.result.toNat
      let numFiles := argv.length - index
      if numFiles = 0 then
        let ev1 := p.events ++ [SysEvent.initFileList ["."] true]
        match env.init_file_list ["."] true with
        | none => (1, ev1 ++ [SysEvent.errOut "No image files found in the current directory"])
        | some fl =>
          (if env.run_viewer p.cfg (some fl) then 0 else 1, ev1 ++ [SysEvent.runViewer (some fl)])
      else if numFiles = 1 ∧ argv.getD index "" = "-" then
        (if env.run_viewer p.cfg none then 0 else 1, p.events ++ [SysEvent.runViewer none])
      else
        let paths := argv.drop index
        let ev1 := p.events ++ [SysEvent.initFileList paths true]
        match env.init_file_list paths true with
        | none => (1, ev1 ++ [SysEvent.errOut "Unable to compose file list from input args"])
        | some fl =>
          (if env.run_viewer p.cfg (some fl) then 0 else 1, ev1 ++ [SysEvent.runViewer (some fl)])

/-- The residual positional arguments of an invocation: argv from the index
returned by parse_cmdline on. -/
def residualArgs (env : Env) (argv : List String) (cfg0 : Config) : List String :=
  argv.drop (parse_cmdline env argv cfg0).result.toNat

/-- Default configuration used by concrete test environments. -/
def cfgDefault : Config :=
  { fullscreen := false, sway_wm := true, show_info := false,
    scale := "default", background := "", geometry := "", app_id := "" }

/-- A concrete environment where every collaborator succeeds. -/
def envA : Env :=
  { scale_ok := fun _ => true, background_ok := fun _ => true,
    geometry_ok := fun _ => true, appid_ok := fun _ => true,
    check_config := fun c => c, init_config := some cfgDefault,
    init_file_list := fun _ _ => some 1, run_viewer := fun _ _ => true,
    app_name := "swayimg", app_version := "1.0", supported_formats := "png" }

/-- A concrete environment whose file enumeration always comes back empty. -/
def envB : Env :=
  { envA with init_file_list := fun _ _ => none }

/-- True exactly for the events the scan loop itself can emit: stdout and
stderr lines. -/
def scanEv : SysEvent → Bool
  | SysEvent.out _ => true
  | SysEvent.errOut _ => true
  | _ => false

/-- The rejected token of a token's event list, when the rejection is
actually reached by the scan: any events before it are plain flag options
(fullscreen, info, no-sway), which always succeed and do not exit. -/
def clusterBad : List GEvent → Option String
  | [] => none
  | GEvent.bad t :: _ => some t
  | GEvent.opt c _ :: rest =>
    if c = 'f' ∨ c = 'i' ∨ c = 'n' then clusterBad rest else none

/-! ### Lemmas about the option switch -/

theorem applyOpt_f (env : Env) (cfg : Config) (a : String) :
    applyOpt env cfg 'f' a = StepOut.ok { cfg with fullscreen := true, sway_wm := false } := rfl

theorem applyOpt_ok_sway (env : Env) (cfg : Config) (c : Char) (a : String) (cfg' : Config)
    (h : applyOpt env cfg c a = StepOut.ok cfg') (hs : cfg.sway_wm = false) :
    cfg'.sway_wm = false := by
  unfold applyOpt at h
  split_ifs at h <;> simp_all <;> subst h <;> simp [hs]

theorem applyOpt_ok_fullscreen (env : Env) (cfg : Config) (c : Char) (a : String) (cfg' : Config)
    (h : applyOpt env cfg c a = StepOut.ok cfg') (hc : c ≠ 'f') :
    cfg'.fullscreen = cfg.fullscreen := by
  unfold applyOpt at h
  split_ifs at h <;> simp_all <;> subst h <;> simp

/-! ### Invariants of event application (the body of the scan loop) -/

theorem applyEvents_sway (env : Env) (es : List GEvent) :
    ∀ cfg ap ev, ('f' ∈ ap → cfg.sway_wm = false) →
      'f' ∈ (applyEvents env es cfg ap ev).appliedOf →
      (applyEvents env es cfg ap ev).cfgOf.sway_wm = false := by
  induction es with
  | nil =>
    intro cfg ap ev h hf
    simp only [applyEvents, EvStep.appliedOf, EvStep.cfgOf] at hf ⊢
    exact h hf
  | cons e rest ih =>
    intro cfg ap ev h
    cases e with
    | bad tok =>
      simp only [applyEvents, EvStep.appliedOf, EvStep.cfgOf]
      exact h
    | opt c a =>
      simp only [applyEvents]
      cases hA : applyOpt env cfg c a with
      | ok cfg' =>
        apply ih
        intro hf
        rcases List.mem_append.mp hf with h1 | h2
        · exact applyOpt_ok_sway env cfg c a cfg' hA (h h1)
        · have hc : 'f' = c := by simpa using h2
          subst hc
          rw [applyOpt_f] at hA
          have : cfg' = { cfg with fullscreen := true, sway_wm := false } := by
            simpa using hA.symm
          simp [this]
      | exit0 outs =>
        simp only [EvStep.appliedOf, EvStep.cfgOf]
        intro hf
        rcases List.mem_append.mp hf with h1 | h2
        · exact h h1
        · have hc : 'f' = c := by simpa using h2
          subst hc
          rw [applyOpt_f] at hA
          cases hA
      | fail =>
        simp only [EvStep.appliedOf, EvStep.cfgOf]
        intro hf
        rcases List.mem_append.mp hf with h1 | h2
        · exact h h1
        · have hc : 'f' = c := by simpa using h2
          subst hc
          rw [applyOpt_f] at hA
          cases hA

theorem applyEvents_fullscreen (env : Env) (b : Bool) (es : List GEvent) :
    ∀ cfg ap ev, ('f' ∉ ap → cfg.fullscreen = b) →
      'f' ∉ (applyEvents env es cfg ap ev).appliedOf →
      (applyEvents env es cfg ap ev).cfgOf.fullscreen = b := by
  induction es with
  | nil =>
    intro cfg ap ev h hf
    simp only [applyEvents, EvStep.appliedOf, EvStep.cfgOf] at hf ⊢
    exact h hf
  | cons e rest ih =>
    intro cfg ap ev h
    cases e with
    | bad tok =>
      simp only [applyEvents, EvStep.appliedOf, EvStep.cfgOf]
      exact h
    | opt c a =>
      simp only [applyEvents]
      cases hA : applyOpt env cfg c a with
      | ok cfg' =>
        apply ih
        intro hf
        have hc : c ≠ 'f' := by
          intro hcf
          exact hf (by simp [hcf])
        have hap : 'f' ∉ ap := fun hm => hf (List.mem_append.mpr (Or.inl hm))
        rw [applyOpt_ok_fullscreen env cfg c a cfg' hA hc]
        exact h hap
      | exit0 outs =>
        simp only [EvStep.appliedOf, EvStep.cfgOf]
        intro hf
        exact h (fun hm => hf (List.mem_append.mpr (Or.inl hm)))
      | fail =>
        simp only [EvStep.appliedOf, EvStep.cfgOf]
        intro hf
        exact h (fun hm => hf (List.mem_append.mpr (Or.inl hm)))

/-! ### Invariants of the scan loop -/

theorem scanLoop_sway (env : Env) (xs : List String) (i : Nat) (cfg : Config)
    (ap : List Char) (ev : List SysEvent) :
    ('f' ∈ ap → cfg.sway_wm = false) →
      'f' ∈ (scanLoop env xs i cfg ap ev).applied →
      (scanLoop env xs i cfg ap ev).cfg.sway_wm = false := by
  induction xs, i, cfg, ap, ev using scanLoop.induct env with
  | case1 i cfg ap ev =>
    intro h hf
    simp only [scanLoop] at hf ⊢
    exact h hf
  | case2 t rest i cfg ap ev hx =>
    intro h hf
    simp only [scanLoop, hx] at hf ⊢
    exact h hf
  | case3 t rest i cfg ap ev hx =>
    intro h hf
    simp only [scanLoop, hx] at hf ⊢
    exact h hf
  | case4 t rest i cfg ap ev es ex hx r cfg' ap' ev' hA =>
    intro h hf
    simp only [scanLoop, hx, hA] at hf ⊢
    have hm := applyEvents_sway env es cfg ap ev h
    rw [hA] at hm
    simp only [EvStep.appliedOf, EvStep.cfgOf] at hm
    exact hm hf
  | case5 t i cfg ap ev es cfg' ap' ev' hA hx =>
    intro h hf
    simp only [scanLoop, hx, hA, if_true] at hf ⊢
    have hm := applyEvents_sway env es cfg ap ev h
    rw [hA] at hm
    simp only [EvStep.appliedOf, EvStep.cfgOf] at hm
    exact hm hf
  | case6 t i cfg ap ev es cfg' ap' ev' hA head rest2 hx ih =>
    intro h hf
    simp only [scanLoop, hx, hA, if_true] at hf ⊢
    have hm := applyEvents_sway env es cfg ap ev h
    rw [hA] at hm
    simp only [EvStep.appliedOf, EvStep.cfgOf] at hm
    exact ih hm hf
  | case7 t rest i cfg ap ev es ex hx cfg' ap' ev' hGo hne ih =>
    intro h hf
    simp only [Bool.not_eq_true] at hne
    subst hne
    simp only [scanLoop, hx, hGo, Bool.false_eq_true, if_false] at hf ⊢
    have hm := applyEvents_sway env es cfg ap ev h
    rw [hGo] at hm
    simp only [EvStep.appliedOf, EvStep.cfgOf] at hm
    exact ih hm hf

theorem scanLoop_fullscreen (env : Env) (b : Bool) (xs : List String) (i : Nat) (cfg : Config)
    (ap : List Char) (ev : List SysEvent) :
    ('f' ∉ ap → cfg.fullscreen = b) →
      'f' ∉ (scanLoop env xs i cfg ap ev).applied →
      (scanLoop env xs i cfg ap ev).cfg.fullscreen = b := by
  induction xs, i, cfg, ap, ev using scanLoop.induct env with
  | case1 i cfg ap ev =>
    intro h hf
    simp only [scanLoop] at hf ⊢
    exact h hf
  | case2 t rest i cfg ap ev hx =>
    intro h hf
    simp only [scanLoop, hx] at hf ⊢
    exact h hf
  | case3 t rest i cfg ap ev hx =>
    intro h hf
    simp only [scanLoop, hx] at hf ⊢
    exact h hf
  | case4 t rest i cfg ap ev es ex hx r cfg' ap' ev' hA =>
    intro h hf
    simp only [scanLoop, hx, hA] at hf ⊢
    have hm := applyEvents_fullscreen env b es cfg ap ev h
    rw [hA] at hm
    simp only [EvStep.appliedOf, EvStep.cfgOf] at hm
    exact hm hf
  | case5 t i cfg ap ev es cfg' ap' ev' hA hx =>
    intro h hf
    simp only [scanLoop, hx, hA, if_true] at hf ⊢
    have hm := applyEvents_fullscreen env b es cfg ap ev h
    rw [hA] at hm
    simp only [EvStep.appliedOf, EvStep.cfgOf] at hm
    exact hm hf
  | case6 t i cfg ap ev es cfg' ap' ev' hA head rest2 hx ih =>
    intro h hf
    simp only [scanLoop, hx, hA, if_true] at hf ⊢
    have hm := applyEvents_fullscreen env b es cfg ap ev h
    rw [hA] at hm
    simp only [EvStep.appliedOf, EvStep.cfgOf] at hm
    exact ih hm hf
  | case7 t rest i cfg ap ev es ex hx cfg' ap' ev' hGo hne ih =>
    intro h hf
    simp only [Bool.not_eq_true] at hne
    subst hne
    simp only [scanLoop, hx, hGo, Bool.false_eq_true, if_false] at hf ⊢
    have hm := applyEvents_fullscreen env b es cfg ap ev h
    rw [hGo] at hm
    simp only [EvStep.appliedOf, EvStep.cfgOf] at hm
    exact ih hm hf

/-- Claim C1: for every argv, after a scan of the argument list that ends in
ContinueAt (no early exit), if the fullscreen option was applied at any
point then the resulting Configuration has swayIntegration ( `sway_wm` )
false, regardless of the order or presence of any other options; and when
the fullscreen option was never applied (in particular when only --no-sway
occurred) the fullscreen field is unchanged, so --no-sway alone never sets
fullscreen. -/
theorem claim_C1 (env : Env) (argv : List String) (cfg : Config)
    (h : outcomeOf (scanLoop env (argv.drop 1) 1 cfg [] []).result
         = ParseOutcome.continueAt (scanLoop env (argv.drop 1) 1 cfg [] []).result.toNat) :
    ('f' ∈ (scanLoop env (argv.drop 1) 1 cfg [] []).applied →
       (scanLoop env (argv.drop 1) 1 cfg [] []).cfg.sway_wm = false)
  ∧ ('f' ∉ (scanLoop env (argv.drop 1) 1 cfg [] []).applied →
       (scanLoop env (argv.drop 1) 1 cfg [] []).cfg.fullscreen = cfg.fullscreen) := by
  constructor
  · exact scanLoop_sway env (argv.drop 1) 1 cfg [] [] (fun hm => absurd hm (by simp))
  · exact scanLoop_fullscreen env cfg.fullscreen (argv.drop 1) 1 cfg [] []
      (fun _ => rfl)

/-- Witness for claim C1 at a concrete invocation mixing --no-sway before
--fullscreen. -/
theorem claim_C1_witness :
    (outcomeOf (scanLoop envA (["swayimg", "-n", "-f", "x.png"].drop 1) 1 cfgDefault [] []).result
       = ParseOutcome.continueAt
           (scanLoop envA (["swayimg", "-n", "-f", "x.png"].drop 1) 1 cfgDefault [] []).result.toNat)
  ∧ (('f' ∈ (scanLoop envA (["swayimg", "-n", "-f", "x.png"].drop 1) 1 cfgDefault [] []).applied →
       (scanLoop envA (["swayimg", "-n", "-f", "x.png"].drop 1) 1 cfgDefault [] []).cfg.sway_wm = false)
  ∧ ('f' ∉ (scanLoop envA (["swayimg", "-n", "-f", "x.png"].drop 1) 1 cfgDefault [] []).applied →
       (scanLoop envA (["swayimg", "-n", "-f", "x.png"].drop 1) 1 cfgDefault [] []).cfg.fullscreen
         = cfgDefault.fullscreen)) :=
  ⟨by decide, claim_C1 envA ["swayimg", "-n", "-f", "x.png"] cfgDefault (by decide)⟩

/-! ### Structure of the event trace produced by the scan -/

theorem versionEvents_scanEv (env : Env) : ∀ e ∈ versionEvents env, scanEv e = true := by
  intro e he
  simp only [versionEvents, List.mem_cons, List.not_mem_nil, or_false] at he
  rcases he with rfl | rfl <;> rfl

theorem printHelpEvents_scanEv (env : Env) : ∀ e ∈ printHelpEvents env, scanEv e = true := by
  intro e he
  simp only [printHelpEvents, List.mem_cons, List.not_mem_nil, or_false] at he
  rcases he with rfl | rfl | rfl | rfl | rfl | rfl | rfl | rfl | rfl | rfl <;> rfl

theorem applyOpt_exit0_outs (env : Env) (cfg : Config) (c : Char) (a : String)
    (outs : List SysEvent) (h : applyOpt env cfg c a = StepOut.exit0 outs) :
    ∀ e ∈ outs, scanEv e = true := by
  unfold applyOpt at h
  split_ifs at h <;>
    first
      | (have h2 := StepOut.exit0.inj h
         subst h2
         first
           | exact versionEvents_scanEv env
           | exact printHelpEvents_scanEv env)
      | exact absurd h (by simp)

theorem applyEvents_events (env : Env) (es : List GEvent) :
    ∀ cfg ap ev, ∃ tl, (applyEvents env es cfg ap ev).eventsOf = ev ++ tl
      ∧ ∀ e ∈ tl, scanEv e = true := by
  induction es with
  | nil =>
    intro cfg ap ev
    exact ⟨[], by simp [applyEvents, EvStep.eventsOf]⟩
  | cons e rest ih =>
    intro cfg ap ev
    cases e with
    | bad tok =>
      refine ⟨[SysEvent.errOut ("Invalid argument: " ++ tok)], ?_, ?_⟩
      · simp [applyEvents, EvStep.eventsOf]
      · intro e he
        simp at he
        subst he
        rfl
    | opt c a =>
      simp only [applyEvents]
      cases hA : applyOpt env cfg c a with
      | ok cfg' => exact ih cfg' (ap ++ [c]) ev
      | exit0 outs =>
        exact ⟨outs, by simp [EvStep.eventsOf], applyOpt_exit0_outs env cfg c a outs hA⟩
      | fail => exact ⟨[], by simp [EvStep.eventsOf]⟩

theorem scanLoop_events (env : Env) (xs : List String) (i : Nat) (cfg : Config)
    (ap : List Char) (ev : List SysEvent) :
    ∃ tl, (scanLoop env xs i cfg ap ev).events = ev ++ tl
      ∧ ∀ e ∈ tl, scanEv e = true := by
  induction xs, i, cfg, ap, ev using scanLoop.induct env with
  | case1 i cfg ap ev => exact ⟨[], by simp [scanLoop]⟩
  | case2 t rest i cfg ap ev hx => exact ⟨[], by simp [scanLoop, hx]⟩
  | case3 t rest i cfg ap ev hx => exact ⟨[], by simp [scanLoop, hx]⟩
  | case4 t rest i cfg ap ev es ex hx r cfg' ap' ev' hA =>
    obtain ⟨tl, he, hall⟩ := applyEvents_events env es cfg ap ev
    rw [hA] at he
    simp only [EvStep.eventsOf] at he
    refine ⟨tl, ?_, hall⟩
    simp only [scanLoop, hx, hA]
    exact he
  | case5 t i cfg ap ev es cfg' ap' ev' hA hx =>
    obtain ⟨tl, he, hall⟩ := applyEvents_events env es cfg ap ev
    rw [hA] at he
    simp only [EvStep.eventsOf] at he
    refine ⟨tl, ?_, hall⟩
    simp only [scanLoop, hx, hA, if_true]
    exact he
  | case6 t i cfg ap ev es cfg' ap' ev' hA head rest2 hx ih =>
    obtain ⟨tl1, he1, hall1⟩ := applyEvents_events env es cfg ap ev
    rw [hA] at he1
    simp only [EvStep.eventsOf] at he1
    obtain ⟨tl2, he2, hall2⟩ := ih
    refine ⟨tl1 ++ tl2, ?_, ?_⟩
    · simp only [scanLoop, hx, hA, if_true]
      rw [he2, he1, List.append_assoc]
    · intro e he
      rcases List.mem_append.mp he with hm | hm
      · exact hall1 e hm
      · exact hall2 e hm
  | case7 t rest i cfg ap ev es ex hx cfg' ap' ev' hGo hne ih =>
    simp only [Bool.not_eq_true] at hne
    subst hne
    obtain ⟨tl1, he1, hall1⟩ := applyEvents_events env es cfg ap ev
    rw [hGo] at he1
    simp only [EvStep.eventsOf] at he1
    obtain ⟨tl2, he2, hall2⟩ := ih
    refine ⟨tl1 ++ tl2, ?_, ?_⟩
    · simp only [scanLoop, hx, hGo, Bool.false_eq_true, if_false]
      rw [he2, he1, List.append_assoc]
    · intro e he
      rcases List.mem_append.mp he with hm | hm
      · exact hall1 e hm
      · exact hall2 e hm

theorem parse_cmdline_pos (env : Env) (argv : List String) (cfg : Config)
    (h : (scanLoop env (argv.drop 1) 1 cfg [] []).result > 0) :
    parse_cmdline env argv cfg =
      { result := (scanLoop env (argv.drop 1) 1 cfg [] []).result,
        cfg := env.check_config (scanLoop env (argv.drop 1) 1 cfg [] []).cfg,
        applied := (scanLoop env (argv.drop 1) 1 cfg [] []).applied,
        events := (scanLoop env (argv.drop 1) 1 cfg [] []).events ++ [SysEvent.checkConfig] } := by
  unfold parse_cmdline
  rw [if_pos h]

theorem parse_cmdline_nonpos (env : Env) (argv : List String) (cfg : Config)
    (h : ¬(scanLoop env (argv.drop 1) 1 cfg [] []).result > 0) :
    parse_cmdline env argv cfg = scanLoop env (argv.drop 1) 1 cfg [] [] := by
  unfold parse_cmdline
  rw [if_neg h]

theorem parse_events_shape (env : Env) (argv : List String) (cfg : Config) :
    ∀ e ∈ (parse_cmdline env argv cfg).events,
      scanEv e = true ∨ e = SysEvent.checkConfig := by
  intro e he
  obtain ⟨tl, hev, hall⟩ := scanLoop_events env (argv.drop 1) 1 cfg [] []
  rw [List.nil_append] at hev
  by_cases hr : (scanLoop env (argv.drop 1) 1 cfg [] []).result > 0
  · rw [parse_cmdline_pos env argv cfg hr] at he
    simp only [hev] at he
    rcases List.mem_append.mp he with hm | hm
    · exact Or.inl (hall e hm)
    · simp at hm
      exact Or.inr hm
  · rw [parse_cmdline_nonpos env argv cfg hr, hev] at he
    exact Or.inl (hall e he)

theorem parse_no_runViewer (env : Env) (argv : List String) (cfg : Config) (fs : Option Nat) :
    SysEvent.runViewer fs ∉ (parse_cmdline env argv cfg).events := by
  intro hm
  rcases parse_events_shape env argv cfg _ hm with h | h
  · simp [scanEv] at h
  · cases h

theorem parse_no_initFileList (env : Env) (argv : List String) (cfg : Config)
    (ps : List String) (r : Bool) :
    SysEvent.initFileList ps r ∉ (parse_cmdline env argv cfg).events := by
  intro hm
  rcases parse_events_shape env argv cfg _ hm with h | h
  · simp [scanEv] at h
  · cases h

theorem scanLoop_checkConfig_count (env : Env) (xs : List String) (i : Nat) (cfg : Config)
    (ap : List Char) (ev : List SysEvent) :
    (scanLoop env xs i cfg ap ev).events.count SysEvent.checkConfig
      = ev.count SysEvent.checkConfig := by
  obtain ⟨tl, hev, hall⟩ := scanLoop_events env xs i cfg ap ev
  rw [hev, List.count_append]
  have : tl.count SysEvent.checkConfig = 0 := by
    rw [List.count_eq_zero]
    intro hm
    have := hall _ hm
    simp [scanEv] at this
  rw [this]
  omega

/-- Claim C8: the configuration validation step (check_config) is invoked
exactly once when the scan finishes via ContinueAt, and never when the scan
returns ExitSuccess (help/version) or ExitFailure. -/
theorem claim_C8 (env : Env) (argv : List String) (cfg : Config) :
    (parse_cmdline env argv cfg).events.count SysEvent.checkConfig
      = match outcomeOf (parse_cmdline env argv cfg).result with
        | ParseOutcome.continueAt _ => 1
        | ParseOutcome.exitSuccess => 0
        | ParseOutcome.exitFailure => 0 := by
  have hcount := scanLoop_checkConfig_count env (argv.drop 1) 1 cfg [] []
  simp only [List.count_nil] at hcount
  by_cases hr : (scanLoop env (argv.drop 1) 1 cfg [] []).result > 0
  · rw [parse_cmdline_pos env argv cfg hr]
    simp only [List.count_append, hcount]
    unfold outcomeOf
    rw [if_neg (by omega), if_neg (by omega)]
    simp [List.count_singleton]
  · rw [parse_cmdline_nonpos env argv cfg hr, hcount]
    unfold outcomeOf
    split_ifs with h0 h1
    · rfl
    · rfl
    · omega

/-! ### One-step unfolding lemmas for the scan loop -/

theorem scanLoop_nil (env : Env) (i : Nat) (cfg : Config) (ap : List Char) (ev : List SysEvent) :
    scanLoop env [] i cfg ap ev
      = { result := Int.ofNat i, cfg := cfg, applied := ap, events := ev } := rfl

theorem scanLoop_cons_positional (env : Env) (t : String) (rest : List String) (i : Nat)
    (cfg : Config) (ap : List Char) (ev : List SysEvent)
    (hx : tokRes (composeShortOpts options) options t rest.head? = TokRes.positional) :
    scanLoop env (t :: rest) i cfg ap ev
      = { result := Int.ofNat i, cfg := cfg, applied := ap, events := ev } := by
  simp only [scanLoop]
  rw [hx]

theorem scanLoop_cons_terminator (env : Env) (t : String) (rest : List String) (i : Nat)
    (cfg : Config) (ap : List Char) (ev : List SysEvent)
    (hx : tokRes (composeShortOpts options) options t rest.head? = TokRes.terminator) :
    scanLoop env (t :: rest) i cfg ap ev
      = { result := Int.ofNat (i + 1), cfg := cfg, applied := ap, events := ev } := by
  simp only [scanLoop]
  rw [hx]

theorem scanLoop_cons_halt (env : Env) (t : String) (rest : List String) (i : Nat)
    (cfg : Config) (ap : List Char) (ev : List SysEvent) (es : List GEvent) (ex : Bool)
    (r : Int) (c1 : Config) (a1 : List Char) (e1 : List SysEvent)
    (hx : tokRes (composeShortOpts options) options t rest.head? = TokRes.evs es ex)
    (hA : applyEvents env es cfg ap ev = EvStep.halt r c1 a1 e1) :
    scanLoop env (t :: rest) i cfg ap ev
      = { result := r, cfg := c1, applied := a1, events := e1 } := by
  simp only [scanLoop]
  rw [hx]
  dsimp only
  rw [hA]

theorem scanLoop_cons_go_false (env : Env) (t : String) (rest : List String) (i : Nat)
    (cfg : Config) (ap : List Char) (ev : List SysEvent) (es : List GEvent)
    (c1 : Config) (a1 : List Char) (e1 : List SysEvent)
    (hx : tokRes (composeShortOpts options) options t rest.head? = TokRes.evs es false)
    (hA : applyEvents env es cfg ap ev = EvStep.go c1 a1 e1) :
    scanLoop env (t :: rest) i cfg ap ev = scanLoop env rest (i + 1) c1 a1 e1 := by
  simp only [scanLoop]
  rw [hx]
  dsimp only
  rw [hA]
  simp

theorem scanLoop_cons_go_true (env : Env) (t r1 : String) (r2 : List String) (i : Nat)
    (cfg : Config) (ap : List Char) (ev : List SysEvent) (es : List GEvent)
    (c1 : Config) (a1 : List Char) (e1 : List SysEvent)
    (hx : tokRes (composeShortOpts options) options t (r1 :: r2).head? = TokRes.evs es true)
    (hA : applyEvents env es cfg ap ev = EvStep.go c1 a1 e1) :
    scanLoop env (t :: r1 :: r2) i cfg ap ev = scanLoop env r2 (i + 2) c1 a1 e1 := by
  simp only [scanLoop]
  rw [hx]
  dsimp only
  rw [hA]
  simp

theorem scanLoop_cons_go_true_nil (env : Env) (t : String) (i : Nat)
    (cfg : Config) (ap : List Char) (ev : List SysEvent) (es : List GEvent)
    (c1 : Config) (a1 : List Char) (e1 : List SysEvent)
    (hx : tokRes (composeShortOpts options) options t none = TokRes.evs es true)
    (hA : applyEvents env es cfg ap ev = EvStep.go c1 a1 e1) :
    scanLoop env [t] i cfg ap ev
      = { result := Int.ofNat (i + 1), cfg := c1, applied := a1, events := e1 } := by
  simp only [scanLoop, List.head?_nil]
  rw [hx]
  dsimp only
  rw [hA]
  simp

/-! ### Help/version short-circuit (claim C4) -/

theorem shortScan_nextRel (spec : List Char) (tok y : String) (chars : List Char) :
    shortScan spec tok none chars = shortScan spec tok (some y) chars
  ∨ ∃ pre c, shortScan spec tok none chars = (pre ++ [GEvent.bad tok], false)
      ∧ shortScan spec tok (some y) chars = (pre ++ [GEvent.opt c y], true) := by
  induction chars with
  | nil => exact Or.inl rfl
  | cons c rest ih =>
    simp only [shortScan]
    cases hsc : specColon spec c with
    | none => exact Or.inl rfl
    | some b =>
      cases b with
      | true =>
        dsimp only
        rcases Decidable.em (rest = []) with hr | hr
        · subst hr
          rw [if_neg (by simp), if_neg (by simp)]
          exact Or.inr ⟨[], c, rfl, rfl⟩
        · rw [if_pos hr, if_pos hr]
          exact Or.inl rfl
      | false =>
        dsimp only
        rcases ih with heq | ⟨pre, c', h1, h2⟩
        · rw [heq]
          exact Or.inl rfl
        · refine Or.inr ⟨GEvent.opt c "" :: pre, c', ?_, ?_⟩
          · rw [h1]
            simp
          · rw [h2]
            simp

theorem longScan_nextRel (tbl : List COption) (tok y : String) (body : List Char) :
    longScan tbl tok none body = longScan tbl tok (some y) body
  ∨ ∃ c, longScan tbl tok none body = ([GEvent.bad tok], false)
      ∧ longScan tbl tok (some y) body = ([GEvent.opt c y], true) := by
  simp only [longScan]
  cases hfind : tbl.find? (fun o => o.name = some (String.mk (body.takeWhile (fun ch => ch ≠ '=')))) with
  | none => exact Or.inl rfl
  | some o =>
    dsimp only
    cases ha : o.has_arg with
    | noArg =>
      cases hv : body.dropWhile (fun ch => ch ≠ '=') with
      | nil => exact Or.inl rfl
      | cons e v => exact Or.inl rfl
    | required =>
      cases hv : body.dropWhile (fun ch => ch ≠ '=') with
      | nil => exact Or.inr ⟨o.val, rfl, rfl⟩
      | cons e v => exact Or.inl rfl

theorem tokRes_nextRel (spec : List Char) (tbl : List COption) (t y : String) :
    tokRes spec tbl t none = tokRes spec tbl t (some y)
  ∨ ∃ pre c, tokRes spec tbl t none = TokRes.evs (pre ++ [GEvent.bad t]) false
      ∧ tokRes spec tbl t (some y) = TokRes.evs (pre ++ [GEvent.opt c y]) true := by
  simp only [tokRes]
  cases hc : tokClass t with
  | positional => exact Or.inl rfl
  | terminator => exact Or.inl rfl
  | long body =>
    dsimp only
    rcases longScan_nextRel tbl t y body with heq | ⟨c, h1, h2⟩
    · rw [heq]
      exact Or.inl rfl
    · exact Or.inr ⟨[], c, by simp [h1], by simp [h2]⟩
  | cluster chars =>
    dsimp only
    rcases shortScan_nextRel spec t y chars with heq | ⟨pre, c, h1, h2⟩
    · rw [heq]
      exact Or.inl rfl
    · exact Or.inr ⟨pre, c, by simp [h1], by simp [h2]⟩

theorem applyEvents_append_bad_halt0 (env : Env) (tok : String) (pre : List GEvent) :
    ∀ cfg ap ev c1 a1 e1,
      applyEvents env (pre ++ [GEvent.bad tok]) cfg ap ev = EvStep.halt 0 c1 a1 e1 →
      ∀ suf, applyEvents env (pre ++ suf) cfg ap ev = EvStep.halt 0 c1 a1 e1 := by
  induction pre with
  | nil =>
    intro cfg ap ev c1 a1 e1 h suf
    simp only [List.nil_append, applyEvents] at h
    cases h
  | cons g pre' ih =>
    intro cfg ap ev c1 a1 e1 h suf
    cases g with
    | bad tok' =>
      simp only [List.cons_append, applyEvents] at h
      cases h
    | opt c a =>
      simp only [List.cons_append, applyEvents] at h ⊢
      cases hA : applyOpt env cfg c a with
      | ok cfg' =>
        rw [hA] at h
        exact ih cfg' (ap ++ [c]) ev c1 a1 e1 h suf
      | exit0 outs =>
        rw [hA] at h
        exact h
      | fail =>
        rw [hA] at h
        cases h

theorem scanLoop_append_exit0 (env : Env) (xs : List String) (i : Nat) (cfg : Config)
    (ap : List Char) (ev : List SysEvent) :
    ∀ ys, 1 ≤ i → (scanLoop env xs i cfg ap ev).result = 0 →
      scanLoop env (xs ++ ys) i cfg ap ev = scanLoop env xs i cfg ap ev := by
  induction xs, i, cfg, ap, ev using scanLoop.induct env with
  | case1 i cfg ap ev =>
    intro ys h1 h0
    simp [scanLoop_nil] at h0
    omega
  | case2 t rest i cfg ap ev hx =>
    intro ys h1 h0
    simp [scanLoop_cons_positional env t rest i cfg ap ev hx] at h0
    omega
  | case3 t rest i cfg ap ev hx =>
    intro ys h1 h0
    simp [scanLoop_cons_terminator env t rest i cfg ap ev hx] at h0
    omega
  | case4 t rest i cfg ap ev es ex hx r cfg' ap' ev' hA =>
    intro ys h1 h0
    rw [scanLoop_cons_halt env t rest i cfg ap ev es ex r cfg' ap' ev' hx hA] at h0
    simp only at h0
    subst h0
    rw [scanLoop_cons_halt env t rest i cfg ap ev es ex 0 cfg' ap' ev' hx hA]
    cases rest with
    | cons r1 r2 =>
      rw [List.cons_append, List.cons_append]
      exact scanLoop_cons_halt env t (r1 :: (r2 ++ ys)) i cfg ap ev es ex 0 cfg' ap' ev'
        (by simpa using hx) hA
    | nil =>
      cases ys with
      | nil => simp [scanLoop_cons_halt env t [] i cfg ap ev es ex 0 cfg' ap' ev' hx hA]
      | cons y ys' =>
        simp only [List.head?_nil] at hx
        rcases tokRes_nextRel (composeShortOpts options) options t y with heq | ⟨pre, c, hn, hs⟩
        · rw [← List.singleton_append, List.append_assoc, List.nil_append]
          exact scanLoop_cons_halt env t (y :: ys') i cfg ap ev es ex 0 cfg' ap' ev'
            (by rw [List.head?_cons, ← heq]; exact hx) hA
        · rw [hn] at hx
          injection hx with hes hex
          subst hes
          have hh := applyEvents_append_bad_halt0 env t pre cfg ap ev cfg' ap' ev' hA
            [GEvent.opt c y]
          rw [← List.singleton_append, List.append_assoc, List.nil_append]
          exact scanLoop_cons_halt env t (y :: ys') i cfg ap ev (pre ++ [GEvent.opt c y]) true
            0 cfg' ap' ev' (by rw [List.head?_cons]; exact hs) hh
  | case5 t i cfg ap ev es cfg' ap' ev' hA hx =>
    intro ys h1 h0
    simp only [List.head?_nil] at hx
    rw [scanLoop_cons_go_true_nil env t i cfg ap ev es cfg' ap' ev' hx hA] at h0
    simp at h0
    omega
  | case6 t i cfg ap ev es cfg' ap' ev' hA head rest2 hx ih =>
    intro ys h1 h0
    rw [scanLoop_cons_go_true env t head rest2 i cfg ap ev es cfg' ap' ev' hx hA] at h0
    rw [List.cons_append, List.cons_append,
      scanLoop_cons_go_true env t head (rest2 ++ ys) i cfg ap ev es cfg' ap' ev'
        (by simpa using hx) hA,
      scanLoop_cons_go_true env t head rest2 i cfg ap ev es cfg' ap' ev' hx hA]
    exact ih ys (by omega) h0
  | case7 t rest i cfg ap ev es ex hx cfg' ap' ev' hGo hne ih =>
    intro ys h1 h0
    simp only [Bool.not_eq_true] at hne
    subst hne
    rw [scanLoop_cons_go_false env t rest i cfg ap ev es cfg' ap' ev' hx hGo] at h0
    cases rest with
    | nil =>
      simp [scanLoop_nil] at h0
      omega
    | cons r1 r2 =>
      rw [List.cons_append, List.cons_append,
        scanLoop_cons_go_false env t (r1 :: (r2 ++ ys)) i cfg ap ev es cfg' ap' ev'
          (by simpa using hx) hGo,
        scanLoop_cons_go_false env t (r1 :: r2) i cfg ap ev es cfg' ap' ev' hx hGo]
      rw [← List.cons_append]
      exact ih ys (by omega) h0

theorem parse_cmdline_result_pos (env : Env) (argv : List String) (cfg : Config)
    (h : (scanLoop env (argv.drop 1) 1 cfg [] []).result > 0) :
    (parse_cmdline env argv cfg).result
      = (scanLoop env (argv.drop 1) 1 cfg [] []).result := by
  rw [parse_cmdline_pos env argv cfg h]

theorem outcomeOf_exitSuccess (r : Int) (h : outcomeOf r = ParseOutcome.exitSuccess) :
    r = 0 := by
  unfold outcomeOf at h
  split_ifs at h with ha hb
  · exact ha
  all_goals simp_all

/-- Claim C4: when --help or --version is the first recognized early-exit
option (the scan returns ExitSuccess), the process exit code is 0, no file
enumeration is performed, the viewer entry point is never invoked, and no
further tokens are scanned: extending argv with any further tokens leaves
the whole parse result unchanged. -/
theorem claim_C4 (env : Env) (argv : List String) (cfg0 : Config)
    (h0 : env.init_config = some cfg0)
    (h1 : outcomeOf (parse_cmdline env argv cfg0).result = ParseOutcome.exitSuccess)
    (h2 : argv ≠ []) :
    mainRun env argv = (0, (parse_cmdline env argv cfg0).events)
  ∧ (∀ ps r, SysEvent.initFileList ps r ∉ (mainRun env argv).2)
  ∧ (∀ fs, SysEvent.runViewer fs ∉ (mainRun env argv).2)
  ∧ ∀ rest, parse_cmdline env (argv ++ rest) cfg0 = parse_cmdline env argv cfg0 := by
  have hr0 : (parse_cmdline env argv cfg0).result = 0 :=
    outcomeOf_exitSuccess _ h1
  have hnp : ¬(scanLoop env (argv.drop 1) 1 cfg0 [] []).result > 0 := by
    intro hgt
    have heq := parse_cmdline_result_pos env argv cfg0 hgt
    omega
  have hscan0 : (scanLoop env (argv.drop 1) 1 cfg0 [] []).result = 0 := by
    rw [← parse_cmdline_nonpos env argv cfg0 hnp]
    exact hr0
  have hmain : mainRun env argv = (0, (parse_cmdline env argv cfg0).events) := by
    simp only [mainRun, h0]
    rw [if_pos hr0]
  refine ⟨hmain, ?_, ?_, ?_⟩
  · intro ps r hm
    rw [hmain] at hm
    exact parse_no_initFileList env argv cfg0 ps r hm
  · intro fs hm
    rw [hmain] at hm
    exact parse_no_runViewer env argv cfg0 fs hm
  · intro rest
    have hdrop : (argv ++ rest).drop 1 = argv.drop 1 ++ rest := by
      cases argv with
      | nil => exact absurd rfl h2
      | cons a l => simp
    unfold parse_cmdline
    rw [hdrop, scanLoop_append_exit0 env (argv.drop 1) 1 cfg0 [] [] rest (le_refl 1) hscan0]

/-- Witness for claim C4: a concrete invocation with --version followed by a
further token. -/
theorem claim_C4_witness :
    (envA.init_config = some cfgDefault
      ∧ outcomeOf (parse_cmdline envA ["swayimg", "-v", "x"] cfgDefault).result
          = ParseOutcome.exitSuccess
      ∧ (["swayimg", "-v", "x"] : List String) ≠ [])
  ∧ (mainRun envA ["swayimg", "-v", "x"]
        = (0, (parse_cmdline envA ["swayimg", "-v", "x"] cfgDefault).events)
    ∧ (∀ ps r, SysEvent.initFileList ps r ∉ (mainRun envA ["swayimg", "-v", "x"]).2)
    ∧ (∀ fs, SysEvent.runViewer fs ∉ (mainRun envA ["swayimg", "-v", "x"]).2)
    ∧ ∀ rest, parse_cmdline envA (["swayimg", "-v", "x"] ++ rest) cfgDefault
        = parse_cmdline envA ["swayimg", "-v", "x"] cfgDefault) :=
  ⟨⟨by decide, by decide, by decide⟩,
   claim_C4 envA ["swayimg", "-v", "x"] cfgDefault (by decide) (by decide) (by decide)⟩

/-! ### Invalid-argument diagnostics (claim C6) -/

theorem applyEvents_clusterBad (env : Env) (es : List GEvent) :
    ∀ cfg ap ev tok, clusterBad es = some tok →
      ∃ c1 a1, applyEvents env es cfg ap ev
        = EvStep.halt (-1) c1 a1 (ev ++ [SysEvent.errOut ("Invalid argument: " ++ tok)]) := by
  induction es with
  | nil =>
    intro cfg ap ev tok hb
    simp [clusterBad] at hb
  | cons e rest ih =>
    intro cfg ap ev tok hb
    cases e with
    | bad t =>
      simp only [clusterBad, Option.some.injEq] at hb
      subst hb
      exact ⟨cfg, ap, rfl⟩
    | opt c a =>
      simp only [clusterBad] at hb
      split_ifs at hb with hc
      rcases hc with rfl | rfl | rfl
      · obtain ⟨c1, a1, hH⟩ :=
          ih { cfg with fullscreen := true, sway_wm := false } (ap ++ ['f']) ev tok hb
        exact ⟨c1, a1, by simp [applyEvents, applyOpt, hH]⟩
      · obtain ⟨c1, a1, hH⟩ := ih { cfg with show_info := true } (ap ++ ['i']) ev tok hb
        exact ⟨c1, a1, by simp [applyEvents, applyOpt, hH]⟩
      · obtain ⟨c1, a1, hH⟩ := ih { cfg with sway_wm := false } (ap ++ ['n']) ev tok hb
        exact ⟨c1, a1, by simp [applyEvents, applyOpt, hH]⟩

/-- Claim C6: when the scan encounters an unrecognized option token, or an
option requiring an argument whose argument is missing (the token's events
carry a rejection reached after only plain flag options), the scan prints a
diagnostic to stderr naming the offending token and returns ExitFailure
(-1) immediately; and a failed parse yields exit code 1 with no viewer
dispatch. -/
theorem claim_C6 (env : Env) :
    (∀ t rest i cfg ap ev es ex tok,
        tokRes (composeShortOpts options) options t rest.head? = TokRes.evs es ex →
        clusterBad es = some tok →
        (scanLoop env (t :: rest) i cfg ap ev).result = -1
        ∧ SysEvent.errOut ("Invalid argument: " ++ tok)
            ∈ (scanLoop env (t :: rest) i cfg ap ev).events)
  ∧ (∀ argv cfg0, env.init_config = some cfg0 →
        (parse_cmdline env argv cfg0).result < 0 →
        (mainRun env argv).1 = 1
        ∧ ∀ fs, SysEvent.runViewer fs ∉ (mainRun env argv).2) := by
  constructor
  · intro t rest i cfg ap ev es ex tok hx hb
    obtain ⟨c1, a1, hH⟩ := applyEvents_clusterBad env es cfg ap ev tok hb
    rw [scanLoop_cons_halt env t rest i cfg ap ev es ex (-1) c1 a1
      (ev ++ [SysEvent.errOut ("Invalid argument: " ++ tok)]) hx hH]
    exact ⟨rfl, by simp⟩
  · intro argv cfg0 h0 hr
    have hmain : mainRun env argv = (1, (parse_cmdline env argv cfg0).events) := by
      simp only [mainRun, h0]
      rw [if_neg (by omega), if_pos hr]
    rw [hmain]
    exact ⟨rfl, fun fs hm => parse_no_runViewer env argv cfg0 fs hm⟩

/-- Witness for claim C6: the unknown option -x. -/
theorem claim_C6_witness :
    (tokRes (composeShortOpts options) options "-x" ([] : List String).head?
        = TokRes.evs [GEvent.bad "-x"] false
      ∧ clusterBad [GEvent.bad "-x"] = some "-x"
      ∧ envA.init_config = some cfgDefault
      ∧ (parse_cmdline envA ["swayimg", "-x"] cfgDefault).result < 0)
  ∧ ((scanLoop envA ["-x"] 1 cfgDefault [] []).result = -1
      ∧ SysEvent.errOut ("Invalid argument: " ++ "-x")
          ∈ (scanLoop envA ["-x"] 1 cfgDefault [] []).events)
  ∧ ((mainRun envA ["swayimg", "-x"]).1 = 1
      ∧ ∀ fs, SysEvent.runViewer fs ∉ (mainRun envA ["swayimg", "-x"]).2) :=
  ⟨⟨by decide, by decide, by decide, by decide⟩,
   (claim_C6 envA).1 "-x" [] 1 cfgDefault [] [] [GEvent.bad "-x"] false "-x"
     (by decide) (by decide),
   (claim_C6 envA).2 ["swayimg", "-x"] cfgDefault (by decide) (by decide)⟩

/-! ### Branch equations for the application entry point -/

theorem mainRun_none (env : Env) (argv : List String) (h : env.init_config = none) :
    mainRun env argv = (1, []) := by
  simp only [mainRun, h]

theorem mainRun_exit0 (env : Env) (argv : List String) (cfg0 : Config)
    (h : env.init_config = some cfg0) (hz : (parse_cmdline env argv cfg0).result = 0) :
    mainRun env argv = (0, (parse_cmdline env argv cfg0).events) := by
  simp only [mainRun, h]
  rw [if_pos hz]

theorem mainRun_err (env : Env) (argv : List String) (cfg0 : Config)
    (h : env.init_config = some cfg0) (hz : ¬(parse_cmdline env argv cfg0).result = 0)
    (hn : (parse_cmdline env argv cfg0).result < 0) :
    mainRun env argv = (1, (parse_cmdline env argv cfg0).events) := by
  simp only [mainRun, h]
  rw [if_neg hz, if_pos hn]

theorem mainRun_defdir_none (env : Env) (argv : List String) (cfg0 : Config)
    (h : env.init_config = some cfg0) (hz : ¬(parse_cmdline env argv cfg0).result = 0)
    (hn : ¬(parse_cmdline env argv cfg0).result < 0)
    (hnf : argv.length - (parse_cmdline env argv cfg0).result.toNat = 0)
    (hfl : env.init_file_list ["."] true = none) :
    mainRun env argv
      = (1, ((parse_cmdline env argv cfg0).events ++ [SysEvent.initFileList ["."] true])
             ++ [SysEvent.errOut "No image files found in the current directory"]) := by
  simp only [mainRun, h]
  rw [if_neg hz, if_neg hn, if_pos hnf, hfl]

theorem mainRun_defdir_some (env : Env) (argv : List String) (cfg0 : Config) (fl : Nat)
    (h : env.init_config = some cfg0) (hz : ¬(parse_cmdline env argv cfg0).result = 0)
    (hn : ¬(parse_cmdline env argv cfg0).result < 0)
    (hnf : argv.length - (parse_cmdline env argv cfg0).result.toNat = 0)
    (hfl : env.init_file_list ["."] true = some fl) :
    mainRun env argv
      = (if env.run_viewer (parse_cmdline env argv cfg0).cfg (some fl) then 0 else 1,
         ((parse_cmdline env argv cfg0).events ++ [SysEvent.initFileList ["."] true])
           ++ [SysEvent.runViewer (some fl)]) := by
  simp only [mainRun, h]
  rw [if_neg hz, if_neg hn, if_pos hnf, hfl]

theorem mainRun_pipe (env : Env) (argv : List String) (cfg0 : Config)
    (h : env.init_config = some cfg0) (hz : ¬(parse_cmdline env argv cfg0).result = 0)
    (hn : ¬(parse_cmdline env argv cfg0).result < 0)
    (hnf : ¬argv.length - (parse_cmdline env argv cfg0).result.toNat = 0)
    (hp : argv.length - (parse_cmdline env argv cfg0).result.toNat = 1
          ∧ argv.getD (parse_cmdline env argv cfg0).result.toNat "" = "-") :
    mainRun env argv
      = (if env.run_viewer (parse_cmdline env argv cfg0).cfg none then 0 else 1,
         (parse_cmdline env argv cfg0).events ++ [SysEvent.runViewer none]) := by
  simp only [mainRun, h]
  rw [if_neg hz, if_neg hn, if_neg hnf, if_pos hp]

theorem mainRun_list_none (env : Env) (argv : List String) (cfg0 : Config)
    (h : env.init_config = some cfg0) (hz : ¬(parse_cmdline env argv cfg0).result = 0)
    (hn : ¬(parse_cmdline env argv cfg0).result < 0)
    (hnf : ¬argv.length - (parse_cmdline env argv cfg0).result.toNat = 0)
    (hp : ¬(argv.length - (parse_cmdline env argv cfg0).result.toNat = 1
          ∧ argv.getD (parse_cmdline env argv cfg0).result.toNat "" = "-"))
    (hfl : env.init_file_list (argv.drop (parse_cmdline env argv cfg0).result.toNat) true
           = none) :
    mainRun env argv
      = (1, ((parse_cmdline env argv cfg0).events
              ++ [SysEvent.initFileList (argv.drop (parse_cmdline env argv cfg0).result.toNat) true])
             ++ [SysEvent.errOut "Unable to compose file list from input args"]) := by
  simp only [mainRun, h]
  rw [if_neg hz, if_neg hn, if_neg hnf, if_neg hp, hfl]

theorem mainRun_list_some (env : Env) (argv : List String) (cfg0 : Config) (fl : Nat)
    (h : env.init_config = some cfg0) (hz : ¬(parse_cmdline env argv cfg0).result = 0)
    (hn : ¬(parse_cmdline env argv cfg0).result < 0)
    (hnf : ¬argv.length - (parse_cmdline env argv cfg0).result.toNat = 0)
    (hp : ¬(argv.length - (parse_cmdline env argv cfg0).result.toNat = 1
          ∧ argv.getD (parse_cmdline env argv cfg0).result.toNat "" = "-"))
    (hfl : env.init_file_list (argv.drop (parse_cmdline env argv cfg0).result.toNat) true
           = some fl) :
    mainRun env argv
      = (if env.run_viewer (parse_cmdline env argv cfg0).cfg (some fl) then 0 else 1,
         ((parse_cmdline env argv cfg0).events
            ++ [SysEvent.initFileList (argv.drop (parse_cmdline env argv cfg0).result.toNat) true])
           ++ [SysEvent.runViewer (some fl)]) := by
  simp only [mainRun, h]
  rw [if_neg hz, if_neg hn, if_neg hnf, if_neg hp, hfl]

/-! ### Exit-code characterization (claim C5) -/

theorem no_runViewer_after_files (env : Env) (argv : List String) (cfg0 : Config)
    (ps : List String) (r : Bool) :
    ∀ fs, SysEvent.runViewer fs
      ∉ (parse_cmdline env argv cfg0).events ++ [SysEvent.initFileList ps r] := by
  intro fs hm
  rcases List.mem_append.mp hm with h | h
  · exact parse_no_runViewer env argv cfg0 fs h
  · simp at h

theorem runViewer_mem_iff (pre : List SysEvent) (fs0 : Option Nat)
    (hpre : ∀ fs, SysEvent.runViewer fs ∉ pre) (fs : Option Nat) :
    SysEvent.runViewer fs ∈ pre ++ [SysEvent.runViewer fs0] ↔ fs = fs0 := by
  constructor
  · intro hm
    rcases List.mem_append.mp hm with h | h
    · exact absurd h (hpre fs)
    · simpa using h
  · intro h
    subst h
    simp

/-- Claim C5: the process exit code is always 0 or 1, and it is 0 exactly
when the scan early-exits via help/version (parse result 0) or the viewer
entry point was invoked and reported success; every other terminating case
yields 1. -/
theorem claim_C5 (env : Env) (argv : List String) (h2 : argv ≠ []) :
    ((mainRun env argv).1 = 0 ∨ (mainRun env argv).1 = 1)
  ∧ ((mainRun env argv).1 = 0 ↔
      ∃ cfg0, env.init_config = some cfg0 ∧
        ((parse_cmdline env argv cfg0).result = 0 ∨
         ∃ fs, SysEvent.runViewer fs ∈ (mainRun env argv).2
           ∧ env.run_viewer (parse_cmdline env argv cfg0).cfg fs = true)) := by
  cases hic : env.init_config with
  | none =>
    rw [mainRun_none env argv hic]
    refine ⟨Or.inr rfl, ?_⟩
    constructor
    · intro h
      exact absurd h one_ne_zero
    · rintro ⟨cfg0, hc0, _⟩
      simp at hc0
  | some cfg0 =>
    by_cases hz : (parse_cmdline env argv cfg0).result = 0
    · rw [mainRun_exit0 env argv cfg0 hic hz]
      refine ⟨Or.inl rfl, ?_⟩
      constructor
      · intro _
        exact ⟨cfg0, rfl, Or.inl hz⟩
      · intro _
        rfl
    · by_cases hneg : (parse_cmdline env argv cfg0).result < 0
      · rw [mainRun_err env argv cfg0 hic hz hneg]
        refine ⟨Or.inr rfl, ?_⟩
        constructor
        · intro h
          exact absurd h one_ne_zero
        · rintro ⟨cfg0', hc0, hcase⟩
          injection hc0 with he
          subst he
          rcases hcase with h | ⟨fs, hmem, _⟩
          · exact absurd h hz
          · exact absurd hmem (parse_no_runViewer env argv cfg0 fs)
      · by_cases hnf : argv.length - (parse_cmdline env argv cfg0).result.toNat = 0
        · cases hfl : env.init_file_list ["."] true with
          | none =>
            rw [mainRun_defdir_none env argv cfg0 hic hz hneg hnf hfl]
            refine ⟨Or.inr rfl, ?_⟩
            constructor
            · intro h
              exact absurd h one_ne_zero
            · rintro ⟨cfg0', hc0, hcase⟩
              injection hc0 with he
              subst he
              rcases hcase with h | ⟨fs, hmem, _⟩
              · exact absurd h hz
              · rcases List.mem_append.mp hmem with hm | hm
                · exact absurd hm (no_runViewer_after_files env argv cfg0 ["."] true fs)
                · simp at hm
          | some fl =>
            rw [mainRun_defdir_some env argv cfg0 fl hic hz hneg hnf hfl]
            dsimp only
            refine ⟨?_, ?_⟩
            · split_ifs <;> simp
            · constructor
              · intro h0
                split_ifs at h0 with hok
                exact ⟨cfg0, rfl, Or.inr ⟨some fl,
                    (runViewer_mem_iff _ (some fl)
                      (no_runViewer_after_files env argv cfg0 ["."] true) (some fl)).mpr rfl,
                    hok⟩⟩
              · rintro ⟨cfg0', hc0, hcase⟩
                injection hc0 with he
                subst he
                rcases hcase with h | ⟨fs, hmem, hok⟩
                · exact absurd h hz
                · have hfs := (runViewer_mem_iff _ (some fl)
                    (no_runViewer_after_files env argv cfg0 ["."] true) fs).mp hmem
                  subst hfs
                  rw [if_pos hok]
        · by_cases hp : (argv.length - (parse_cmdline env argv cfg0).result.toNat = 1
              ∧ argv.getD (parse_cmdline env argv cfg0).result.toNat "" = "-")
          · rw [mainRun_pipe env argv cfg0 hic hz hneg hnf hp]
            dsimp only
            refine ⟨?_, ?_⟩
            · split_ifs <;> simp
            · constructor
              · intro h0
                split_ifs at h0 with hok
                exact ⟨cfg0, rfl, Or.inr ⟨none,
                    (runViewer_mem_iff _ none
                      (fun fs => parse_no_runViewer env argv cfg0 fs) none).mpr rfl, hok⟩⟩
              · rintro ⟨cfg0', hc0, hcase⟩
                injection hc0 with he
                subst he
                rcases hcase with h | ⟨fs, hmem, hok⟩
                · exact absurd h hz
                · have hfs := (runViewer_mem_iff _ none
                    (fun fs => parse_no_runViewer env argv cfg0 fs) fs).mp hmem
                  subst hfs
                  rw [if_pos hok]
          · cases hfl : env.init_file_list
                (argv.drop (parse_cmdline env argv cfg0).result.toNat) true with
            | none =>
              rw [mainRun_list_none env argv cfg0 hic hz hneg hnf hp hfl]
              refine ⟨Or.inr rfl, ?_⟩
              constructor
              · intro h
                exact absurd h one_ne_zero
              · rintro ⟨cfg0', hc0, hcase⟩
                injection hc0 with he
                subst he
                rcases hcase with h | ⟨fs, hmem, _⟩
                · exact absurd h hz
                · rcases List.mem_append.mp hmem with hm | hm
                  · exact absurd hm (no_runViewer_after_files env argv cfg0 _ true fs)
                  · simp at hm
            | some fl =>
              rw [mainRun_list_some env argv cfg0 fl hic hz hneg hnf hp hfl]
              dsimp only
              refine ⟨?_, ?_⟩
              · split_ifs <;> simp
              · constructor
                · intro h0
                  split_ifs at h0 with hok
                  exact ⟨cfg0, rfl, Or.inr ⟨some fl,
                      (runViewer_mem_iff _ (some fl)
                        (no_runViewer_after_files env argv cfg0 _ true) (some fl)).mpr rfl,
                      hok⟩⟩
                · rintro ⟨cfg0', hc0, hcase⟩
                  injection hc0 with he
                  subst he
                  rcases hcase with h | ⟨fs, hmem, hok⟩
                  · exact absurd h hz
                  · have hfs := (runViewer_mem_iff _ (some fl)
                      (no_runViewer_after_files env argv cfg0 _ true) fs).mp hmem
                    subst hfs
                    rw [if_pos hok]

/-- Witness for claim C5 at a concrete successful invocation. -/
theorem claim_C5_witness :
    ((["swayimg", "x"] : List String) ≠ [])
  ∧ (((mainRun envA ["swayimg", "x"]).1 = 0 ∨ (mainRun envA ["swayimg", "x"]).1 = 1)
    ∧ ((mainRun envA ["swayimg", "x"]).1 = 0 ↔
        ∃ cfg0, envA.init_config = some cfg0 ∧
          ((parse_cmdline envA ["swayimg", "x"] cfg0).result = 0 ∨
           ∃ fs, SysEvent.runViewer fs ∈ (mainRun envA ["swayimg", "x"]).2
             ∧ envA.run_viewer (parse_cmdline envA ["swayimg", "x"] cfg0).cfg fs = true))) :=
  ⟨by decide, claim_C5 envA ["swayimg", "x"] (by decide)⟩

/-! ### File-set selection (claims C2 and C10) -/

theorem getD_headD_drop (l : List String) : ∀ n : Nat, l.getD n "" = (l.drop n).headD "" := by
  induction l with
  | nil =>
    intro n
    cases n <;> rfl
  | cons a t ih =>
    intro n
    cases n with
    | zero => rfl
    | succ m => exact ih m

theorem drop_pipe_iff (argv : List String) (index : Nat) :
    argv.drop index = ["-"]
      ↔ (argv.length - index = 1 ∧ argv.getD index "" = "-") := by
  constructor
  · intro h
    constructor
    · have hl := congrArg List.length h
      rw [List.length_drop] at hl
      exact hl
    · rw [getD_headD_drop, h]
      rfl
  · rintro ⟨hl1, hd⟩
    have hlen : (argv.drop index).length = 1 := by
      rw [List.length_drop]
      exact hl1
    obtain ⟨a, ha⟩ := List.length_eq_one.mp hlen
    rw [ha]
    rw [getD_headD_drop, ha] at hd
    simp only [List.headD_cons] at hd
    rw [hd]

/-- Claim C2: after a scan ending in ContinueAt, exactly one of three
file-set modes is chosen from the residual positional arguments, in
priority order: zero positionals yields a recursive enumeration rooted at
the current directory (failing with exit code 1 and a diagnostic when it
produces no files); exactly one positional equal to the dash token yields
the stdin sentinel with no enumeration; any other list yields a recursive
enumeration seeded with exactly those positionals (failing with exit code 1
and a diagnostic when the resulting set is empty). -/
theorem claim_C2 (env : Env) (argv : List String) (cfg0 : Config)
    (h0 : env.init_config = some cfg0) (h1 : argv ≠ [])
    (h2 : (parse_cmdline env argv cfg0).result > 0) :
    (residualArgs env argv cfg0 = [] →
        SysEvent.initFileList ["."] true ∈ (mainRun env argv).2
      ∧ (env.init_file_list ["."] true = none →
            (mainRun env argv).1 = 1
          ∧ SysEvent.errOut "No image files found in the current directory"
              ∈ (mainRun env argv).2
          ∧ ∀ fs, SysEvent.runViewer fs ∉ (mainRun env argv).2)
      ∧ (∀ fl, env.init_file_list ["."] true = some fl →
            SysEvent.runViewer (some fl) ∈ (mainRun env argv).2))
  ∧ (residualArgs env argv cfg0 = ["-"] →
        (∀ ps r, SysEvent.initFileList ps r ∉ (mainRun env argv).2)
      ∧ SysEvent.runViewer none ∈ (mainRun env argv).2)
  ∧ (residualArgs env argv cfg0 ≠ [] → residualArgs env argv cfg0 ≠ ["-"] →
        SysEvent.initFileList (residualArgs env argv cfg0) true ∈ (mainRun env argv).2
      ∧ (env.init_file_list (residualArgs env argv cfg0) true = none →
            (mainRun env argv).1 = 1
          ∧ SysEvent.errOut "Unable to compose file list from input args"
              ∈ (mainRun env argv).2
          ∧ ∀ fs, SysEvent.runViewer fs ∉ (mainRun env argv).2)
      ∧ (∀ fl, env.init_file_list (residualArgs env argv cfg0) true = some fl →
            SysEvent.runViewer (some fl) ∈ (mainRun env argv).2)) := by
  have hz : ¬(parse_cmdline env argv cfg0).result = 0 := by omega
  have hneg : ¬(parse_cmdline env argv cfg0).result < 0 := by omega
  have hPdef : residualArgs env argv cfg0
      = argv.drop (parse_cmdline env argv cfg0).result.toNat := rfl
  refine ⟨?_, ?_, ?_⟩
  · intro hP
    rw [hPdef] at hP
    have hnf : argv.length - (parse_cmdline env argv cfg0).result.toNat = 0 := by
      have hl := congrArg List.length hP
      rw [List.length_drop] at hl
      simpa using hl
    cases hfl : env.init_file_list ["."] true with
    | none =>
      rw [mainRun_defdir_none env argv cfg0 h0 hz hneg hnf hfl]
      refine ⟨by simp, fun _ => ⟨rfl, by simp, ?_⟩, ?_⟩
      · intro fs hm
        rcases List.mem_append.mp hm with hm1 | hm1
        · exact absurd hm1 (no_runViewer_after_files env argv cfg0 ["."] true fs)
        · simp at hm1
      · intro fl hfl'
        cases hfl'
    | some fl =>
      rw [mainRun_defdir_some env argv cfg0 fl h0 hz hneg hnf hfl]
      refine ⟨by simp, ?_, ?_⟩
      · intro hfl'
        cases hfl'
      · intro fl' hfl'
        injection hfl' with he
        subst he
        simp
  · intro hP
    rw [hPdef] at hP
    have hp := (drop_pipe_iff argv (parse_cmdline env argv cfg0).result.toNat).mp hP
    have hnf : ¬argv.length - (parse_cmdline env argv cfg0).result.toNat = 0 := by
      omega
    rw [mainRun_pipe env argv cfg0 h0 hz hneg hnf hp]
    refine ⟨?_, by simp⟩
    intro ps r hm
    rcases List.mem_append.mp hm with hm1 | hm1
    · exact parse_no_initFileList env argv cfg0 ps r hm1
    · simp at hm1
  · intro hP1 hP2
    rw [hPdef] at hP1 hP2
    have hnf : ¬argv.length - (parse_cmdline env argv cfg0).result.toNat = 0 := by
      intro hc
      apply hP1
      have : (argv.drop (parse_cmdline env argv cfg0).result.toNat).length = 0 := by
        rw [List.length_drop]
        exact hc
      exact List.eq_nil_of_length_eq_zero this
    have hp : ¬(argv.length - (parse_cmdline env argv cfg0).result.toNat = 1
        ∧ argv.getD (parse_cmdline env argv cfg0).result.toNat "" = "-") := by
      intro hc
      exact hP2 ((drop_pipe_iff argv (parse_cmdline env argv cfg0).result.toNat).mpr hc)
    rw [hPdef]
    cases hfl : env.init_file_list
        (argv.drop (parse_cmdline env argv cfg0).result.toNat) true with
    | none =>
      rw [mainRun_list_none env argv cfg0 h0 hz hneg hnf hp hfl]
      refine ⟨by simp, fun _ => ⟨rfl, by simp, ?_⟩, ?_⟩
      · intro fs hm
        rcases List.mem_append.mp hm with hm1 | hm1
        · exact absurd hm1 (no_runViewer_after_files env argv cfg0 _ true fs)
        · simp at hm1
      · intro fl hfl'
        cases hfl'
    | some fl =>
      rw [mainRun_list_some env argv cfg0 fl h0 hz hneg hnf hp hfl]
      refine ⟨by simp, ?_, ?_⟩
      · intro hfl'
        cases hfl'
      · intro fl' hfl'
        injection hfl' with he
        subst he
        simp

/-- Witness for claim C2: no positional arguments and an empty current
directory. -/
theorem claim_C2_witness :
    (envB.init_config = some cfgDefault
      ∧ (["swayimg"] : List String) ≠ []
      ∧ (parse_cmdline envB ["swayimg"] cfgDefault).result > 0
      ∧ residualArgs envB ["swayimg"] cfgDefault = []
      ∧ envB.init_file_list ["."] true = none)
  ∧ (SysEvent.initFileList ["."] true ∈ (mainRun envB ["swayimg"]).2
      ∧ (mainRun envB ["swayimg"]).1 = 1
      ∧ SysEvent.errOut "No image files found in the current directory"
          ∈ (mainRun envB ["swayimg"]).2
      ∧ ∀ fs, SysEvent.runViewer fs ∉ (mainRun envB ["swayimg"]).2) :=
  have h := (claim_C2 envB ["swayimg"] cfgDefault (by decide) (by decide) (by decide)).1
    (by decide)
  ⟨⟨by decide, by decide, by decide, by decide, by decide⟩,
   h.1, (h.2.1 (by decide)).1, (h.2.1 (by decide)).2.1, (h.2.1 (by decide)).2.2⟩

/-- Claim C10: the dash token selects stdin-pipe mode only when it is the
sole residual positional argument: with two or more positionals, a dash
occurrence is passed to the explicit-list enumeration as an ordinary path
and the stdin sentinel is never dispatched. -/
theorem claim_C10 (env : Env) (argv : List String) (cfg0 : Config)
    (h0 : env.init_config = some cfg0) (h1 : argv ≠ [])
    (h2 : (parse_cmdline env argv cfg0).result > 0)
    (h3 : 2 ≤ (residualArgs env argv cfg0).length)
    (h4 : "-" ∈ residualArgs env argv cfg0) :
    SysEvent.initFileList (residualArgs env argv cfg0) true ∈ (mainRun env argv).2
  ∧ "-" ∈ residualArgs env argv cfg0
  ∧ SysEvent.runViewer none ∉ (mainRun env argv).2 := by
  have hz : ¬(parse_cmdline env argv cfg0).result = 0 := by omega
  have hneg : ¬(parse_cmdline env argv cfg0).result < 0 := by omega
  have hPdef : residualArgs env argv cfg0
      = argv.drop (parse_cmdline env argv cfg0).result.toNat := rfl
  have hlen : (residualArgs env argv cfg0).length
      = argv.length - (parse_cmdline env argv cfg0).result.toNat := by
    rw [hPdef, List.length_drop]
  have hnf : ¬argv.length - (parse_cmdline env argv cfg0).result.toNat = 0 := by
    omega
  have hp : ¬(argv.length - (parse_cmdline env argv cfg0).result.toNat = 1
      ∧ argv.getD (parse_cmdline env argv cfg0).result.toNat "" = "-") := by
    rintro ⟨hc, _⟩
    omega
  cases hfl : env.init_file_list
      (argv.drop (parse_cmdline env argv cfg0).result.toNat) true with
  | none =>
    rw [mainRun_list_none env argv cfg0 h0 hz hneg hnf hp hfl]
    refine ⟨?_, h4, ?_⟩
    · rw [hPdef]
      simp
    · intro hm
      rcases List.mem_append.mp hm with hm1 | hm1
      · exact absurd hm1 (no_runViewer_after_files env argv cfg0 _ true none)
      · simp at hm1
  | some fl =>
    rw [mainRun_list_some env argv cfg0 fl h0 hz hneg hnf hp hfl]
    refine ⟨?_, h4, ?_⟩
    · rw [hPdef]
      simp
    · intro hm
      rcases List.mem_append.mp hm with hm1 | hm1
      · exact absurd hm1 (no_runViewer_after_files env argv cfg0 _ true none)
      · simp at hm1

/-- Witness for claim C10: two positionals, one of them the dash token. -/
theorem claim_C10_witness :
    (envA.init_config = some cfgDefault
      ∧ (["swayimg", "a.png", "-"] : List String) ≠ []
      ∧ (parse_cmdline envA ["swayimg", "a.png", "-"] cfgDefault).result > 0
      ∧ 2 ≤ (residualArgs envA ["swayimg", "a.png", "-"] cfgDefault).length
      ∧ "-" ∈ residualArgs envA ["swayimg", "a.png", "-"] cfgDefault)
  ∧ (SysEvent.initFileList (residualArgs envA ["swayimg", "a.png", "-"] cfgDefault) true
        ∈ (mainRun envA ["swayimg", "a.png", "-"]).2
    ∧ "-" ∈ residualArgs envA ["swayimg", "a.png", "-"] cfgDefault
    ∧ SysEvent.runViewer none ∉ (mainRun envA ["swayimg", "a.png", "-"]).2) :=
  ⟨⟨by decide, by decide, by decide, by decide, by decide⟩,
   claim_C10 envA ["swayimg", "a.png", "-"] cfgDefault (by decide) (by decide) (by decide)
     (by decide) (by decide)⟩

/-! ### The scan cursor (claim C3) -/

theorem firstPositional_cons_positional (t : String) (rest : List String) (i : Nat)
    (hx : tokRes (composeShortOpts options) options t rest.head? = TokRes.positional) :
    firstPositional (t :: rest) i = some i := by
  cases rest with
  | nil =>
    rw [List.head?_nil] at hx
    simp [firstPositional, hx]
  | cons a b =>
    rw [List.head?_cons] at hx
    simp [firstPositional, hx]

theorem firstPositional_cons_terminator (t : String) (rest : List String) (i : Nat)
    (hx : tokRes (composeShortOpts options) options t rest.head? = TokRes.terminator) :
    firstPositional (t :: rest) i = if rest.isEmpty then none else some (i + 1) := by
  cases rest with
  | nil =>
    rw [List.head?_nil] at hx
    simp [firstPositional, hx]
  | cons a b =>
    rw [List.head?_cons] at hx
    simp [firstPositional, hx]

theorem firstPositional_cons_true_cons (t r1 : String) (r2 : List String) (i : Nat)
    (es : List GEvent)
    (hx : tokRes (composeShortOpts options) options t (r1 :: r2).head? = TokRes.evs es true) :
    firstPositional (t :: r1 :: r2) i = firstPositional r2 (i + 2) := by
  rw [List.head?_cons] at hx
  simp [firstPositional, hx]

theorem firstPositional_cons_true_nil (t : String) (i : Nat) (es : List GEvent)
    (hx : tokRes (composeShortOpts options) options t none = TokRes.evs es true) :
    firstPositional [t] i = none := by
  simp [firstPositional, hx]

theorem firstPositional_cons_false (t : String) (rest : List String) (i : Nat)
    (es : List GEvent)
    (hx : tokRes (composeShortOpts options) options t rest.head? = TokRes.evs es false) :
    firstPositional (t :: rest) i = firstPositional rest (i + 1) := by
  cases rest with
  | nil =>
    rw [List.head?_nil] at hx
    simp [firstPositional, hx]
  | cons a b =>
    rw [List.head?_cons] at hx
    simp [firstPositional, hx]

theorem applyEvents_halt_values (env : Env) (es : List GEvent) :
    ∀ cfg ap ev r c1 a1 e1, applyEvents env es cfg ap ev = EvStep.halt r c1 a1 e1 →
      r = 0 ∨ r = -1 := by
  induction es with
  | nil =>
    intro cfg ap ev r c1 a1 e1 h
    cases h
  | cons e rest ih =>
    intro cfg ap ev r c1 a1 e1 h
    cases e with
    | bad tok =>
      simp only [applyEvents] at h
      injection h with hr
      exact Or.inr hr.symm
    | opt c a =>
      simp only [applyEvents] at h
      cases hA : applyOpt env cfg c a with
      | ok cfg' =>
        rw [hA] at h
        exact ih _ _ _ _ _ _ _ h
      | exit0 outs =>
        rw [hA] at h
        injection h with hr
        exact Or.inl hr.symm
      | fail =>
        rw [hA] at h
        injection h with hr
        exact Or.inr hr.symm

theorem scanLoop_firstPositional (env : Env) (xs : List String) (i : Nat) (cfg : Config)
    (ap : List Char) (ev : List SysEvent) :
    (scanLoop env xs i cfg ap ev).result > 0 →
    (scanLoop env xs i cfg ap ev).result
      = Int.ofNat ((firstPositional xs i).getD (i + xs.length)) := by
  induction xs, i, cfg, ap, ev using scanLoop.induct env with
  | case1 i cfg ap ev =>
    intro h
    simp [scanLoop_nil, firstPositional]
  | case2 t rest i cfg ap ev hx =>
    intro h
    rw [scanLoop_cons_positional env t rest i cfg ap ev hx,
      firstPositional_cons_positional t rest i hx]
    rfl
  | case3 t rest i cfg ap ev hx =>
    intro h
    rw [scanLoop_cons_terminator env t rest i cfg ap ev hx,
      firstPositional_cons_terminator t rest i hx]
    cases rest with
    | nil => rfl
    | cons r1 r2 => rfl
  | case4 t rest i cfg ap ev es ex hx r cfg' ap' ev' hA =>
    intro h
    rw [scanLoop_cons_halt env t rest i cfg ap ev es ex r cfg' ap' ev' hx hA] at h ⊢
    rcases applyEvents_halt_values env es cfg ap ev r cfg' ap' ev' hA with hr | hr <;>
      (subst hr; simp at h)
  | case5 t i cfg ap ev es cfg' ap' ev' hA hx =>
    intro h
    simp only [List.head?_nil] at hx
    rw [scanLoop_cons_go_true_nil env t i cfg ap ev es cfg' ap' ev' hx hA,
      firstPositional_cons_true_nil t i es hx]
    rfl
  | case6 t i cfg ap ev es cfg' ap' ev' hA head rest2 hx ih =>
    intro h
    rw [scanLoop_cons_go_true env t head rest2 i cfg ap ev es cfg' ap' ev' hx hA] at h ⊢
    rw [firstPositional_cons_true_cons t head rest2 i es hx]
    have harith : i + (t :: head :: rest2).length = i + 2 + rest2.length := by
      simp [List.length_cons]
      omega
    rw [harith]
    exact ih h
  | case7 t rest i cfg ap ev es ex hx cfg' ap' ev' hGo hne ih =>
    intro h
    simp only [Bool.not_eq_true] at hne
    subst hne
    rw [scanLoop_cons_go_false env t rest i cfg ap ev es cfg' ap' ev' hx hGo] at h ⊢
    rw [firstPositional_cons_false t rest i es hx]
    have harith : i + (t :: rest).length = i + 1 + rest.length := by
      simp [List.length_cons]
      omega
    rw [harith]
    exact ih h

/-- Claim C3: for every argv whose scan triggers no early exit or failure
(it returns ContinueAt), the returned index is the position in argv of the
first non-option token, as computed by the reference cursor
firstPositional, and it equals the argv length when argv contains no
positional token (firstPositional returns none and the default is taken). -/
theorem claim_C3 (env : Env) (argv : List String) (cfg : Config) (h1 : argv ≠ [])
    (h : (scanLoop env (argv.drop 1) 1 cfg [] []).result > 0) :
    (scanLoop env (argv.drop 1) 1 cfg [] []).result
      = Int.ofNat ((firstPositional (argv.drop 1) 1).getD argv.length) := by
  have hcore := scanLoop_firstPositional env (argv.drop 1) 1 cfg [] [] h
  have hpos : 1 ≤ argv.length := by
    cases argv with
    | nil => exact absurd rfl h1
    | cons a l => simp
  have harith : 1 + (argv.drop 1).length = argv.length := by
    rw [List.length_drop]
    omega
  rw [hcore, harith]

/-- Witness for claim C3: options with a consumed separate argument before
the first positional. -/
theorem claim_C3_witness :
    ((["swayimg", "-f", "--scale", "fit", "img.png", "-n"] : List String) ≠ []
      ∧ (scanLoop envA (["swayimg", "-f", "--scale", "fit", "img.png", "-n"].drop 1)
          1 cfgDefault [] []).result > 0)
  ∧ (scanLoop envA (["swayimg", "-f", "--scale", "fit", "img.png", "-n"].drop 1)
        1 cfgDefault [] []).result
      = Int.ofNat ((firstPositional
          (["swayimg", "-f", "--scale", "fit", "img.png", "-n"].drop 1) 1).getD
          (["swayimg", "-f", "--scale", "fit", "img.png", "-n"] : List String).length) :=
  ⟨⟨by decide, by decide⟩,
   claim_C3 envA ["swayimg", "-f", "--scale", "fit", "img.png", "-n"] cfgDefault
     (by decide) (by decide)⟩

/-! ### Short-option specification composition (claims C7 and C9) -/

theorem shortOptWrites_map_snd (tbl : List COption) :
    ∀ p : Nat, (shortOptWrites tbl p).map Prod.snd
      = tbl.flatMap entrySpecChars ++ [Char.ofNat 0] := by
  induction tbl with
  | nil =>
    intro p
    simp [shortOptWrites]
  | cons o rest ih =>
    intro p
    simp only [shortOptWrites, List.flatMap_cons, entrySpecChars]
    by_cases hval : o.val.toNat ≠ 0
    · cases ha : o.has_arg with
      | noArg =>
        rw [if_pos hval, if_pos hval, if_neg (by simp [ha]), if_neg (by simp [ha])]
        simp [ih (p + 1)]
      | required =>
        rw [if_pos hval, if_pos hval, if_pos (by simp [ha]), if_pos (by simp [ha])]
        simp [ih (p + 2)]
    · rw [if_neg hval, if_neg hval]
      simp [ih p]

theorem composeShortOpts_flatMap (tbl : List COption) :
    composeShortOpts tbl = tbl.flatMap entrySpecChars := by
  induction tbl with
  | nil => simp [composeShortOpts]
  | cons o rest ih =>
    simp only [composeShortOpts, List.flatMap_cons, entrySpecChars]
    by_cases hval : o.val.toNat ≠ 0
    · cases ha : o.has_arg with
      | noArg =>
        rw [if_pos hval, if_pos hval, if_neg (by simp [ha]), if_neg (by simp [ha])]
        simp [ih]
      | required =>
        rw [if_pos hval, if_pos hval, if_pos (by simp [ha]), if_pos (by simp [ha])]
        simp [ih]
    · rw [if_neg hval, if_neg hval]
      simp [ih]

/-- Claim C7: the short-option specification derived from the option table
contains, for every entry with a non-zero short character, that character
followed by a colon if and only if the entry requires an argument, in table
iteration order and with no other characters besides the terminating null:
the buffer writes spell out exactly the per-entry contributions, the
in-memory spec string used for scanning coincides with them, and on the
concrete table the result is the expected string. -/
theorem claim_C7 :
    (∀ (tbl : List COption) (p : Nat),
        (shortOptWrites tbl p).map Prod.snd
          = tbl.flatMap entrySpecChars ++ [Char.ofNat 0])
  ∧ (∀ tbl : List COption, composeShortOpts tbl = tbl.flatMap entrySpecChars)
  ∧ composeShortOpts options
      = ['f', 's', ':', 'b', ':', 'g', ':', 'i', 'c', ':', 'n', 'v', 'h']
  ∧ (shortOptWrites options 0).map Prod.fst
      = [0, 1, 2, 3, 4, 5, 6, 7, 8, 9, 10, 11, 12, 13] :=
  ⟨fun tbl p => shortOptWrites_map_snd tbl p,
   fun tbl => composeShortOpts_flatMap tbl,
   by decide, by decide⟩

/-- Claim C9: composing the short-option specification for the static
10-entry option table writes 14 characters including the terminating null,
which is at most 2*(N-1)+1 = 19 and never exceeds the 2*N = 20 character
buffer; every write index stays strictly below the buffer size. -/
theorem claim_C9 :
    (shortOptWrites options 0).length = 14
  ∧ (shortOptWrites options 0).length ≤ 2 * (options.length - 1) + 1
  ∧ 2 * (options.length - 1) + 1 ≤ 2 * options.length
  ∧ ((shortOptWrites options 0).map Prod.fst).all
      (fun k => decide (k < 2 * options.length)) = true := by
  decide

example : (scanLoop envA ["-n", "-f", "x.png"] 1 cfgDefault [] []).result = 3 := by decide
example : (scanLoop envA ["-n", "-f", "x.png"] 1 cfgDefault [] []).applied = ['n', 'f'] := by decide
example : (scanLoop envA ["--scale", "fit", "a"] 1 cfgDefault [] []).result = 3 := by decide
example : (scanLoop envA ["-sfit", "a"] 1 cfgDefault [] []).cfg.scale = "fit" := by decide
example : (scanLoop envA ["-x"] 1 cfgDefault [] []).result = -1 := by decide
example : (scanLoop envA ["-v", "a"] 1 cfgDefault [] []).result = 0 := by decide
example : (scanLoop envA ["--", "-f"] 1 cfgDefault [] []).result = 2 := by decide
example : (mainRun envA ["swayimg", "-"]).1 = 0 := by decide
example : (mainRun envB ["swayimg"]).1 = 1 := by decide
example : firstPositional ["-f", "--scale", "fit", "img", "-n"] 1 = some 4 := by decide
